import Mathlib

/-! Verification development for the therapy-normalization core: the concept
record model, the merge group builder, the normalization query engine and the
UNII lookup view. The merge group builder and the query engine are modelled
from the specification (their Python sources are not part of the repository
snapshot; only the SQL schema, the CI scripts and the merged-record fixtures
are), while the SQL files and the fixture data are embedded directly. -/

namespace Therapy

/-- Whitespace test used when trimming surrounding whitespace from a query
(space, tab, newline, carriage return). -/
def wspB (c : Char) : Bool :=
  c == ' ' || c == '\t' || c == '\n' || c == '\r'

/-- The upper-to-lower letter table of ASCII case folding. -/
def lowerPairs : List (Char × Char) :=
  [('A', 'a'), ('B', 'b'), ('C', 'c'), ('D', 'd'), ('E', 'e'), ('F', 'f'),
   ('G', 'g'), ('H', 'h'), ('I', 'i'), ('J', 'j'), ('K', 'k'), ('L', 'l'),
   ('M', 'm'), ('N', 'n'), ('O', 'o'), ('P', 'p'), ('Q', 'q'), ('R', 'r'),
   ('S', 's'), ('T', 't'), ('U', 'u'), ('V', 'v'), ('W', 'w'), ('X', 'x'),
   ('Y', 'y'), ('Z', 'z')]

/-- ASCII case folding of one character, as performed by the lower() based
index normalization (add_indexes.sql builds lower() expression indexes on
every searchable term column). -/
def foldChar (c : Char) : Char :=
  ((lowerPairs.find? (fun p => p.1 == c)).map (fun p => p.2)).getD c

/-- Case folding of a whole string. -/
def foldStr (s : String) : String := ⟨s.data.map foldChar⟩

/-- Trimming of surrounding whitespace, on the character list. -/
def trimL (l : List Char) : List Char :=
  ((l.dropWhile wspB).reverse.dropWhile wspB).reverse

/-- Trimming of surrounding whitespace of a string. -/
def trimStr (s : String) : String := ⟨trimL s.data⟩

/-- Modelled from the spec: the canonical shape of one per-source concept
record (spec data model), with the nullable merge_ref back reference that the
merge group builder recomputes. -/
structure ConceptRecord where
  concept_id : String
  source : String
  label : Option String
  aliases : List String
  trade_names : List String
  xrefs : List String
  associated_with : List String
  approval_ratings : List String
  indications : List String
  merge_ref : Option String
deriving DecidableEq, Repr

/-- Modelled from the spec: one canonical merged record per merge group
(therapy_merged row shape in create_tables.sql plus the member id set). -/
structure MergedRecord where
  concept_id : String
  label : Option String
  aliases : List String
  trade_names : List String
  xrefs : List String
  associated_with : List String
  approval_ratings : List String
  indications : List String
  members : List String
deriving DecidableEq, Repr

/-- True when a group shares at least one identifier with the candidate set. -/
def touches (S g : List String) : Bool := g.any (fun a => S.contains a)

/-- Fold one identifier set into the accumulated groups: all groups sharing an
identifier with the set are unioned with it into one group. -/
def addSet (S : List String) (gs : List (List String)) : List (List String) :=
  ((gs.filter (fun g => touches S g)).foldl (fun acc g => acc ++ g) S)
    :: gs.filter (fun g => !(touches S g))

/-- Modelled from the spec: the clustering step of the merge group builder.
The spec computes connected components of the undirected xref graph with
union-find, unioning each concept id with all of its xrefs; folding each
identifier set into a partition while unioning every group it touches
computes the same connected components. -/
def buildGroups : List (List String) → List (List String)
  | [] => []
  | S :: rest => addSet S (buildGroups rest)

/-- Two identifiers co-occur in one of the per-record identifier sets. -/
def SetRel (sets : List (List String)) (a b : String) : Prop :=
  ∃ S ∈ sets, a ∈ S ∧ b ∈ S

/-- Connectivity in the xref graph: the equivalence closure of co-occurrence
in a per-record identifier set. This is the spec clustering relation (direct
citation, co-citation by a third record, and a shared external identifier all
generate it). -/
def Conn (sets : List (List String)) : String → String → Prop :=
  Relation.EqvGen (SetRel sets)

/-- The identifier set a record contributes to clustering: its own concept id
together with all of its xrefs. -/
def recordNodeSet (r : ConceptRecord) : List String := r.concept_id :: r.xrefs

/-- All identifier sets of a record list. -/
def conceptSets (records : List ConceptRecord) : List (List String) :=
  records.map recordNodeSet

/-- The merge groups of a record list. -/
def therapyGroups (records : List ConceptRecord) : List (List String) :=
  buildGroups (conceptSets records)

/-- The member records of a group: the records whose concept id belongs to
the group (external identifiers in the group have no record). -/
def groupRecords (records : List ConceptRecord) (g : List String) : List ConceptRecord :=
  records.filter (fun r => g.contains r.concept_id)

/-- Lexicographic order on character lists by code point. -/
def lexLe : List Char → List Char → Bool
  | [], _ => true
  | _ :: _, [] => false
  | c :: cs, d :: ds =>
    if c.toNat < d.toNat then true
    else if d.toNat < c.toNat then false
    else lexLe cs ds

/-- Lexicographic order on strings by code point. -/
def strLe (s t : String) : Bool := lexLe s.data t.data

/-- Source-priority order on records: smaller priority rank wins, ties broken
by the lexicographically smaller concept id. -/
def keyLe (prio : String → Nat) (r₁ r₂ : ConceptRecord) : Prop :=
  prio r₁.source < prio r₂.source ∨
    (prio r₁.source = prio r₂.source ∧ strLe r₁.concept_id r₂.concept_id = true)

/-- Pick the record that wins under source priority, ties by concept id. -/
def better (prio : String → Nat) (r₁ r₂ : ConceptRecord) : ConceptRecord :=
  if prio r₁.source < prio r₂.source then r₁
  else if prio r₂.source < prio r₁.source then r₂
  else if strLe r₁.concept_id r₂.concept_id then r₁ else r₂

/-- The highest-priority member of a record list. -/
def bestMember (prio : String → Nat) : List ConceptRecord → Option ConceptRecord
  | [] => none
  | r :: rs =>
    match bestMember prio rs with
    | none => some r
    | some b => some (better prio r b)

/-- The group that contains a given concept id, if any. -/
def mergeGroupOf (records : List ConceptRecord) (cid : String) : Option (List String) :=
  (therapyGroups records).find? (fun g => g.contains cid)

/-- The identifier of a group: the concept id of its highest-priority member
record. -/
def groupIdOf (prio : String → Nat) (records : List ConceptRecord) (g : List String) :
    Option String :=
  (bestMember prio (groupRecords records g)).map (fun r => r.concept_id)

/-- The merge_ref the builder assigns to a record: the identifier of the
group containing its concept id. -/
def mergeRefOf (prio : String → Nat) (records : List ConceptRecord) (r : ConceptRecord) :
    Option String :=
  match mergeGroupOf records r.concept_id with
  | some g => groupIdOf prio records g
  | none => none

/-- Modelled from the spec: label selection on merge takes the label of the
highest-priority member that has a label, ties broken by the
lexicographically smallest concept id. -/
def selectLabel (prio : String → Nat) (mems : List ConceptRecord) : Option String :=
  (bestMember prio (mems.filter (fun r => r.label.isSome))).bind (fun r => r.label)

/-- Modelled from the spec: the canonical merged record of one group, with
the union deduplication corrected by the merged fixtures. List-valued fields
are the set union across members, deduplicated exactly (the phenobarbital
and cisplatin fixtures keep case-variant aliases and trade names, so
deduplication is case-sensitive). -/
def mkMerged (prio : String → Nat) (records : List ConceptRecord) (g : List String) :
    MergedRecord :=
  let mems := groupRecords records g
  { concept_id := ((bestMember prio mems).map (fun r => r.concept_id)).getD ""
  , label := selectLabel prio mems
  , aliases := (mems.flatMap (fun r => r.aliases)).dedup
  , trade_names := (mems.flatMap (fun r => r.trade_names)).dedup
  , xrefs := (mems.flatMap (fun r => r.xrefs)).dedup
  , associated_with := (mems.flatMap (fun r => r.associated_with)).dedup
  , approval_ratings := (mems.flatMap (fun r => r.approval_ratings)).dedup
  , indications := (mems.flatMap (fun r => r.indications)).dedup
  , members := (mems.map (fun r => r.concept_id)).dedup }

/-- A group exhibits a self merge when two of its member records come from
the same source. -/
def selfMergy (records : List ConceptRecord) (g : List String) : Bool :=
  !(decide (((groupRecords records g).map (fun r => r.source)).Nodup))

/-- Modelled from the spec: the failure signal of the merge group builder
when two records of one source collapse into a single group. -/
inductive MergeError
  | selfMerge
deriving DecidableEq, Repr

/-- The stored state: the concept records (with their merge_ref column) and
the published merged record set (therapy_merged). -/
structure DBState where
  concepts : List ConceptRecord
  merged : List MergedRecord
deriving DecidableEq, Repr

/-- Clear the merge_ref back reference of a record. -/
def clearRecord (r : ConceptRecord) : ConceptRecord := { r with merge_ref := none }

/-- Embedded from delete_normalized_concepts.sql: set every merge_ref to NULL
and drop (recreate empty) the therapy_merged table. This runs before every
rebuild of the merged set. -/
def deleteNormalizedConcepts (st : DBState) : DBState :=
  { concepts := st.concepts.map clearRecord, merged := [] }

/-- Write the computed merge ref into every record. -/
def setMergeRefs (prio : String → Nat) (cs : List ConceptRecord) : List ConceptRecord :=
  cs.map (fun r => { r with merge_ref := mergeRefOf prio cs r })

/-- Modelled from the spec: the merge group builder. It clusters the records,
fails with SelfMergeError when a group holds two records of one source, and
otherwise produces the records with their new merge_refs together with the
merged record per group. -/
def computeMerged (prio : String → Nat) (cs : List ConceptRecord) :
    Except MergeError (List ConceptRecord × List MergedRecord) :=
  if (therapyGroups cs).any (fun g => selfMergy cs g) then
    Except.error MergeError.selfMerge
  else Except.ok
    (setMergeRefs prio cs, (therapyGroups cs).map (fun g => mkMerged prio cs g))

/-- Modelled from the spec and delete_normalized_concepts.sql: a rebuild first
deletes the previously published merged set, then runs the builder; on
failure the cleared state remains, on success the new merge_refs and merged
records are published. -/
def rebuild (prio : String → Nat) (st : DBState) : DBState × Option MergeError :=
  let st₁ := deleteNormalizedConcepts st
  match computeMerged prio st₁.concepts with
  | Except.error e => (st₁, some e)
  | Except.ok p => ({ concepts := p.1, merged := p.2 }, none)

/-- The fixed source priority ranking evidenced by the merged fixtures (the
rxcui member always provides the merged concept id). -/
def sourcePriority (source : String) : Nat :=
  if source = "rxnorm" then 1 else if source = "ncit" then 2
  else if source = "hemonc" then 3 else if source = "drugbank" then 4
  else if source = "drugsatfda" then 5 else if source = "guidetopharmacology" then 6
  else if source = "chembl" then 7 else if source = "chemidplus" then 8
  else if source = "wikidata" then 9 else 100

/-- Modelled from the spec: the error raised synchronously for an empty or
whitespace-only query. -/
inductive QueryError
  | invalidQuery
deriving DecidableEq, Repr

/-- Modelled from the spec: the five match tiers of the query engine, in the
fixed descending priority order (alias and trade name form one tier of equal
priority). -/
inductive Tier
  | conceptId
  | label
  | aliasTrade
  | xref
  | assoc
deriving DecidableEq, Repr

/-- The position of a tier in the fixed priority order. -/
def tierIdx : Tier → Nat
  | Tier.conceptId => 0
  | Tier.label => 1
  | Tier.aliasTrade => 2
  | Tier.xref => 3
  | Tier.assoc => 4

/-- The tiers in their fixed descending priority order. -/
def tierList : List Tier :=
  [Tier.conceptId, Tier.label, Tier.aliasTrade, Tier.xref, Tier.assoc]

/-- The stored terms a merged group exposes at one tier. -/
def tierTerms : Tier → MergedRecord → List String
  | Tier.conceptId, g => g.members
  | Tier.label, g => g.label.toList
  | Tier.aliasTrade, g => g.aliases ++ g.trade_names
  | Tier.xref, g => g.xrefs
  | Tier.assoc, g => g.associated_with

/-- A stored term matches a normalized query exactly when its case-folded
form equals the query (lower() expression indexes in add_indexes.sql). -/
def termMatches (qn term : String) : Bool := foldStr term == qn

/-- Whether a group has a hit at a tier for a normalized query. -/
def tierMatch (t : Tier) (qn : String) (g : MergedRecord) : Bool :=
  (tierTerms t g).any (termMatches qn)

/-- All groups with a hit at a tier for a normalized query. -/
def tierHits (db : List MergedRecord) (t : Tier) (qn : String) : List MergedRecord :=
  db.filter (tierMatch t qn)

/-- The distinct group identifiers among a hit list. -/
def distinctIds (hits : List MergedRecord) : List String :=
  (hits.map (fun g => g.concept_id)).dedup

/-- Modelled from the spec: the tagged result variant of a query. -/
inductive QueryResult
  | matched (t : Tier) (g : MergedRecord)
  | ambiguous (t : Tier) (gs : List MergedRecord)
  | noMatch
deriving DecidableEq, Repr

/-- Resolve the hits of the first tier that has any: exactly one distinct
group is a match, two or more distinct groups are ambiguous. -/
def resolveHits (t : Tier) (hits : List MergedRecord) : QueryResult :=
  match hits, distinctIds hits with
  | g :: _, [_] => QueryResult.matched t g
  | _ :: _, _ :: _ :: _ => QueryResult.ambiguous t hits
  | _, _ => QueryResult.noMatch

/-- Modelled from the spec: scan the tiers in priority order and stop at the
first tier with any hit. -/
def scanTiers (db : List MergedRecord) (qn : String) : List Tier → QueryResult
  | [] => QueryResult.noMatch
  | t :: ts =>
    if tierHits db t qn = [] then scanTiers db qn ts
    else resolveHits t (tierHits db t qn)

/-- Resolve a normalized query against the merged set. -/
def resolveQuery (db : List MergedRecord) (qn : String) : QueryResult :=
  scanTiers db qn tierList

/-- Modelled from the spec: input normalization of the query engine. The
query is trimmed; an empty or whitespace-only query fails with
InvalidQueryError, otherwise the trimmed query is case-folded. -/
def normQuery (q : String) : Except QueryError String :=
  if (trimStr q).data = [] then Except.error QueryError.invalidQuery
  else Except.ok (foldStr (trimStr q))

/-- Modelled from the spec: the full query path of the normalization engine. -/
def normalize (db : List MergedRecord) (q : String) : Except QueryError QueryResult :=
  match normQuery q with
  | Except.error e => Except.error e
  | Except.ok qn => Except.ok (resolveQuery db qn)

/-- One row of the therapy_associations table. -/
structure AssocRow where
  concept_id : String
  associated_with : String
deriving DecidableEq, Repr

/-- Case-sensitive prefix test between strings. -/
def isPre (p s : String) : Bool := List.isPrefixOf p.data s.data

/-- Case-insensitive prefix test between strings: the semantics of the SQL
ILIKE operator with a trailing percent wildcard. -/
def isPreCI (p s : String) : Bool :=
  List.isPrefixOf (p.data.map foldChar) (s.data.map foldChar)

/-- The WHERE clause of create_unii_lookup_view.sql: the association value
matches unii:%% and the concept id matches drugsatfda.%% under ILIKE. -/
def uniiRowKeep (row : AssocRow) : Bool :=
  isPreCI "unii:" row.associated_with && isPreCI "drugsatfda." row.concept_id

/-- Embedded from create_unii_lookup_view.sql: keep the rows passing the
WHERE clause, group them by concept id, keep the groups holding exactly one
row, and emit that row as the pair of the concept id and its unii value. -/
def uniiLookupView (table : List AssocRow) : List (String × String) :=
  let kept := table.filter uniiRowKeep
  ((kept.map (fun r => r.concept_id)).dedup).filterMap (fun cid =>
    match kept.filter (fun r => r.concept_id == cid) with
    | [r] => some (cid, r.associated_with)
    | _ => none)

/-- The claim wording of the xref graph, for comparison with the source
clustering relation: whether an identifier is the concept id of some record. -/
def isRecordId (records : List ConceptRecord) (a : String) : Prop :=
  ∃ r ∈ records, r.concept_id = a

/-- The claim wording of the xref graph, for comparison with the source
clustering relation: an edge joins two record ids when one record lists the
other in its xrefs, or both appear as xrefs of some third record. -/
def claimEdge (records : List ConceptRecord) (a b : String) : Prop :=
  isRecordId records a ∧ isRecordId records b ∧
    ((∃ r ∈ records, r.concept_id = a ∧ b ∈ r.xrefs) ∨
     (∃ r ∈ records, r.concept_id = b ∧ a ∈ r.xrefs) ∨
     (∃ r ∈ records, a ∈ r.xrefs ∧ b ∈ r.xrefs))

/-- The claim wording of xref connectivity: the equivalence closure of the
claim edges. -/
def claimConnected (records : List ConceptRecord) : String → String → Prop :=
  Relation.EqvGen (claimEdge records)

/-- The lexicographically smallest string of a list. -/
def lexMin : List String → Option String
  | [] => none
  | s :: rest =>
    match lexMin rest with
    | none => some s
    | some t => some (if strLe s t then s else t)

/-- The cisplatin merged fixture of delete_normalized_concepts.sql: the
concept id of the merged record. -/
def cisplatinGroupId : String := "rxcui:2555"

/-- The cisplatin merged fixture: its xrefs, the concept ids of the other
group members. -/
def cisplatinXrefs : List String :=
  ["ncit:C376", "hemonc:105", "drugbank:DB00515", "drugbank:DB12117",
   "drugsatfda.anda:074656", "drugsatfda.anda:074735", "drugsatfda.anda:075036",
   "drugsatfda.anda:206774", "drugsatfda.anda:207323", "drugsatfda.nda:018057",
   "iuphar.ligand:5343", "chembl:CHEMBL11359", "chemidplus:15663-27-1",
   "wikidata:Q412415"]

/-- The member concept ids of the cisplatin merge group fixture. -/
def cisplatinMembers : List String := cisplatinGroupId :: cisplatinXrefs

/-- The aliases of the phenobarbital merged fixture of
delete_normalized_concepts.sql, verbatim. -/
def phenobarbitalMergedAliases : List String :=
  ["PHENobarbital", "Phenobarbitone", "NSC-128143",
   "5-Ethyl-5-phenyl-pyrimidine-2,4,6-trione",
   "5-Phenyl-5-ethylbarbituric acid",
   "5-ethyl-5-phenyl-1,3-diazinane-2,4,6-trione",
   "Phenobarbituric Acid", "Phenylethylbarbituric Acid", "PHENOBARBITAL",
   "phenobarbitone", "Phenylethylbarbitursäure",
   "5-Ethyl-5-phenylbarbituric acid", "NSC-128143-", "phenobarb", "Luminal",
   "5-ethyl-5-phenyl-2,4,6(1H,3H,5H)-pyrimidinetrione", "PHENYLETHYLMALONYLUREA",
   "Phenylethylbarbiturate", "Luminal®", "Phenemal", "fenobarbital",
   "Fenobarbital", "Phenylethylbarbitursaeure",
   "5-Ethyl-5-phenyl-2,4,6(1H,3H,5H)-pyrimidinetrione", "phenylethylbarbiturate",
   "Phenobarbital civ", "Phenylaethylbarbitursaeure", "Phenobarbitol",
   "NSC-9848", "Phenyläthylbarbitursäure", "phenobarbital",
   "5-ethyl-5-phenylpyrimidine-2,4,6(1H,3H,5H)-trione", "APRD00184",
   "Phenylethylmalonylurea", "PHENO", "phenobarbital sodium", "Phenobarbital"]

/-- A record of source src1 whose only xref is the shared external identifier
ext:s. -/
def exSharedA : ConceptRecord :=
  ⟨"src1:a", "src1", none, [], [], ["ext:s"], [], [], [], none⟩

/-- A record of source src2 whose only xref is the same shared external
identifier ext:s. -/
def exSharedB : ConceptRecord :=
  ⟨"src2:b", "src2", none, [], [], ["ext:s"], [], [], [], none⟩

/-- Two records joined only through a shared external xref. -/
def exSharedRecs : List ConceptRecord := [exSharedA, exSharedB]

/-- A record citing wConnB directly. -/
def wConnA : ConceptRecord :=
  ⟨"src1:a", "src1", none, [], [], ["src2:b"], [], [], [], none⟩

/-- A record cited by wConnA. -/
def wConnB : ConceptRecord :=
  ⟨"src2:b", "src2", none, [], [], [], [], [], [], none⟩

/-- Two records joined by a direct citation. -/
def wConnRecs : List ConceptRecord := [wConnA, wConnB]

/-- The ncit record of the spec example scenario. -/
def wNcit : ConceptRecord :=
  ⟨"ncit:C1", "ncit", some "Drug A", [], [], ["chembl:CHEMBL1"], [], [], [], none⟩

/-- The chembl record of the spec example scenario. -/
def wChembl : ConceptRecord :=
  ⟨"chembl:CHEMBL1", "chembl", some "drug-a", [], [], ["ncit:C1"], [], [], [], none⟩

/-- The record pair of the spec example scenario. -/
def wExampleRecs : List ConceptRecord := [wNcit, wChembl]

/-- Two records of the same source ncit erroneously cross-referencing each
other (the self-merge example scenario of the spec). -/
def selfMergeRecs : List ConceptRecord :=
  [⟨"ncit:C1", "ncit", none, [], [], ["ncit:C2"], [], [], [], none⟩,
   ⟨"ncit:C2", "ncit", none, [], [], ["ncit:C1"], [], [], [], none⟩]

/-- A previously published merged record, present before a failing rebuild. -/
def priorMerged : MergedRecord :=
  ⟨"rxcui:1", some "old", [], [], [], [], [], [], ["rxcui:1"]⟩

/-- A database state holding the self-merging records and a previously
published merged set. -/
def selfMergeState : DBState :=
  ⟨selfMergeRecs, [priorMerged]⟩

/-- A merged group whose label is foo. -/
def gLabelFoo : MergedRecord :=
  ⟨"rxcui:10", some "foo", ["other"], [], [], [], [], [], ["rxcui:10"]⟩

/-- A merged group exposing foo only as an alias. -/
def gAliasFoo : MergedRecord :=
  ⟨"rxcui:11", some "bar", ["Foo"], [], [], [], [], [], ["rxcui:11"]⟩

/-- A second distinct merged group exposing Foo as an alias. -/
def gAliasFoo2 : MergedRecord :=
  ⟨"rxcui:12", some "baz", ["FOO"], [], [], [], [], [], ["rxcui:12"]⟩

/-- A merged set where foo is a label of one group and an alias of another. -/
def wTierDb : List MergedRecord := [gLabelFoo, gAliasFoo]

/-- A merged set where two distinct groups expose the alias Foo and neither
has a higher-tier match for it. -/
def wAmbigDb : List MergedRecord := [gAliasFoo, gAliasFoo2]

/-- A table holding one Drugs at FDA association row whose concept id is
upper-cased. -/
def cxUniiTable : List AssocRow :=
  [⟨"DRUGSATFDA.nda:1", "unii:X"⟩]

/-- Case folding does not turn a whitespace character into a non-whitespace
character or vice versa. -/
theorem foldChar_wsp (c : Char) : wspB (foldChar c) = wspB c := by
  by_cases h : wspB c = true
  · have hc : ((c = ' ' ∨ c = '\t') ∨ c = '\n') ∨ c = '\r' := by
      simpa [wspB] using h
    rcases hc with ((h' | h') | h') | h' <;> subst h' <;> decide
  · rw [Bool.not_eq_true] at h
    rw [h]
    unfold foldChar
    cases hf : lowerPairs.find? (fun p => p.1 == c) with
    | none => simpa using h
    | some p =>
      have hp : p ∈ lowerPairs := List.mem_of_find?_eq_some hf
      have hall : lowerPairs.all (fun p => !(wspB p.2)) = true := by decide
      have hlow := List.all_eq_true.mp hall p hp
      simpa using hlow

/-- Trimming commutes with case folding. -/
theorem trimL_map_foldChar (l : List Char) :
    trimL (l.map foldChar) = (trimL l).map foldChar := by
  have h : (wspB ∘ foldChar) = wspB := funext fun c => foldChar_wsp c
  unfold trimL
  rw [List.dropWhile_map, h, ← List.map_reverse, List.dropWhile_map, h,
    ← List.map_reverse]

/-- The trimmed character list is empty exactly when every character is
whitespace. -/
theorem trimL_eq_nil_iff (l : List Char) :
    trimL l = [] ↔ ∀ c ∈ l, wspB c = true := by
  unfold trimL
  rw [List.reverse_eq_nil_iff, List.dropWhile_eq_nil_iff]
  constructor
  · intro h c hc
    have hsplit := List.takeWhile_append_dropWhile wspB l
    rw [← hsplit] at hc
    rcases List.mem_append.mp hc with h₁ | h₂
    · exact List.mem_takeWhile_imp h₁
    · exact h c (List.mem_reverse.mpr h₂)
  · intro h c hc
    exact h c (List.Sublist.mem (List.mem_reverse.mp hc) (List.dropWhile_sublist wspB))

/-- Case folding of the trimmed string, expressed by folding first. -/
theorem foldStr_trimStr (q : String) :
    foldStr (trimStr q) = ⟨trimL (q.data.map foldChar)⟩ := by
  show (⟨(trimL q.data).map foldChar⟩ : String) = ⟨trimL (q.data.map foldChar)⟩
  rw [trimL_map_foldChar]

/-- Queries with the same case-folded form normalize to the same value. -/
theorem normQuery_fold_invariant {q₁ q₂ : String} (h : foldStr q₁ = foldStr q₂) :
    normQuery q₁ = normQuery q₂ := by
  have hd : q₁.data.map foldChar = q₂.data.map foldChar := congrArg String.data h
  have k₁ : (trimL q₁.data).map foldChar = (trimL q₂.data).map foldChar := by
    rw [← trimL_map_foldChar, ← trimL_map_foldChar, hd]
  have hfold : foldStr (trimStr q₁) = foldStr (trimStr q₂) := by
    rw [foldStr_trimStr, foldStr_trimStr, hd]
  have hempty : (trimL q₁.data = []) ↔ (trimL q₂.data = []) := by
    constructor
    · intro h₁
      have h₂ : (trimL q₂.data).map foldChar = [] := by
        rw [← k₁, h₁]
        rfl
      exact List.map_eq_nil_iff.mp h₂
    · intro h₁
      have h₂ : (trimL q₁.data).map foldChar = [] := by
        rw [k₁, h₁]
        rfl
      exact List.map_eq_nil_iff.mp h₂
  unfold normQuery
  rw [show (trimStr q₁).data = trimL q₁.data from rfl,
    show (trimStr q₂).data = trimL q₂.data from rfl]
  by_cases hq : trimL q₁.data = []
  · rw [if_pos hq, if_pos (hempty.mp hq)]
  · rw [if_neg hq, if_neg (fun hx => hq (hempty.mpr hx)), hfold]

/-- Queries with the same case-folded form get the same engine result. -/
theorem normalize_fold_invariant (db : List MergedRecord) {q₁ q₂ : String}
    (h : foldStr q₁ = foldStr q₂) : normalize db q₁ = normalize db q₂ := by
  unfold normalize
  rw [normQuery_fold_invariant h]

/-- Membership in a left fold of list appends. -/
theorem mem_foldl_append (l : List (List String)) (init : List String) (a : String) :
    a ∈ l.foldl (fun acc g => acc ++ g) init ↔ a ∈ init ∨ ∃ g ∈ l, a ∈ g := by
  induction l generalizing init with
  | nil => simp
  | cons g gs ih =>
    rw [List.foldl_cons, ih]
    simp only [List.mem_append, List.mem_cons]
    constructor
    · rintro ((h | h) | ⟨g', hg', h⟩)
      · exact Or.inl h
      · exact Or.inr ⟨g, Or.inl rfl, h⟩
      · exact Or.inr ⟨g', Or.inr hg', h⟩
    · rintro (h | ⟨g', hg' | hg', h⟩)
      · exact Or.inl (Or.inl h)
      · exact Or.inl (Or.inr (hg' ▸ h))
      · exact Or.inr ⟨g', hg', h⟩

/-- A group touches a set exactly when they share an identifier. -/
theorem touches_iff (S g : List String) : touches S g = true ↔ ∃ c ∈ g, c ∈ S := by
  unfold touches
  rw [List.any_eq_true]
  simp

/-- Every identifier in a built group comes from one of the input sets. -/
theorem buildGroups_support (sets : List (List String)) :
    ∀ g ∈ buildGroups sets, ∀ a ∈ g, ∃ S ∈ sets, a ∈ S := by
  induction sets with
  | nil => simp [buildGroups]
  | cons S ss ih =>
    intro g hg a ha
    rw [buildGroups] at hg
    unfold addSet at hg
    rcases List.mem_cons.mp hg with rfl | hrest
    · rcases (mem_foldl_append _ _ _).mp ha with haS | ⟨gt, hgt, hagt⟩
      · exact ⟨S, List.mem_cons_self S ss, haS⟩
      · obtain ⟨S', hS', haS'⟩ := ih gt (List.mem_of_mem_filter hgt) a hagt
        exact ⟨S', List.mem_cons_of_mem _ hS', haS'⟩
    · obtain ⟨S', hS', haS'⟩ := ih g (List.mem_of_mem_filter hrest) a ha
      exact ⟨S', List.mem_cons_of_mem _ hS', haS'⟩

/-- Each input set is contained in some built group. -/
theorem buildGroups_subset (sets : List (List String)) :
    ∀ S ∈ sets, ∃ g ∈ buildGroups sets, S ⊆ g := by
  induction sets with
  | nil => simp
  | cons S₀ ss ih =>
    intro S hS
    rcases List.mem_cons.mp hS with rfl | hS'
    · refine ⟨((buildGroups ss).filter (fun g => touches S g)).foldl
        (fun acc g => acc ++ g) S, ?_, ?_⟩
      · rw [buildGroups]
        unfold addSet
        exact List.mem_cons_self _ _
      · intro a ha
        exact (mem_foldl_append _ _ _).mpr (Or.inl ha)
    · obtain ⟨g, hg, hsub⟩ := ih S hS'
      by_cases ht : touches S₀ g = true
      · refine ⟨((buildGroups ss).filter (fun g => touches S₀ g)).foldl
          (fun acc g => acc ++ g) S₀, ?_, ?_⟩
        · rw [buildGroups]
          unfold addSet
          exact List.mem_cons_self _ _
        · intro a ha
          refine (mem_foldl_append _ _ _).mpr (Or.inr ⟨g, ?_, hsub ha⟩)
          exact List.mem_filter.mpr ⟨hg, ht⟩
      · refine ⟨g, ?_, hsub⟩
        rw [buildGroups]
        unfold addSet
        refine List.mem_cons_of_mem _ (List.mem_filter.mpr ⟨hg, ?_⟩)
        simpa using ht

/-- Extending the set list preserves connectivity. -/
theorem Conn_mono (S : List String) (ss : List (List String)) :
    ∀ x y, Conn ss x y → Conn (S :: ss) x y := fun x y hxy =>
  Relation.EqvGen.mono
    (fun u v huv => by
      obtain ⟨T, hT, hu, hv⟩ := huv
      exact ⟨T, List.mem_cons_of_mem _ hT, hu, hv⟩)
    hxy

/-- Any two identifiers in one built group are connected. -/
theorem buildGroups_sound (sets : List (List String)) :
    ∀ g ∈ buildGroups sets, ∀ a ∈ g, ∀ b ∈ g, Conn sets a b := by
  induction sets with
  | nil => simp [buildGroups]
  | cons S ss ih =>
    intro g hg a ha b hb
    rw [buildGroups] at hg
    unfold addSet at hg
    rcases List.mem_cons.mp hg with rfl | hrest
    · have key : ∀ x ∈ ((buildGroups ss).filter (fun g => touches S g)).foldl
          (fun acc g => acc ++ g) S, ∃ y ∈ S, Conn (S :: ss) x y := by
        intro x hx
        rcases (mem_foldl_append _ _ _).mp hx with hxS | ⟨gt, hgt, hxgt⟩
        · exact ⟨x, hxS, Relation.EqvGen.refl x⟩
        · have hgt' : gt ∈ buildGroups ss := List.mem_of_mem_filter hgt
          have htc : touches S gt = true := (List.mem_filter.mp hgt).2
          obtain ⟨c, hcgt, hcS⟩ := (touches_iff S gt).mp htc
          exact ⟨c, hcS, Conn_mono S ss x c (ih gt hgt' x hxgt c hcgt)⟩
      obtain ⟨ya, hyaS, hca⟩ := key a ha
      obtain ⟨yb, hybS, hcb⟩ := key b hb
      have hyy : Conn (S :: ss) ya yb :=
        Relation.EqvGen.rel _ _ ⟨S, List.mem_cons_self _ _, hyaS, hybS⟩
      exact Relation.EqvGen.trans _ _ _ hca
        (Relation.EqvGen.trans _ _ _ hyy (Relation.EqvGen.symm _ _ hcb))
    · exact Conn_mono S ss a b (ih g (List.mem_of_mem_filter hrest) a ha b hb)

/-- The disjointness relation on groups is symmetric. -/
theorem disjRel_symm :
    Symmetric (fun g₁ g₂ : List String => ∀ a, a ∈ g₁ → a ∈ g₂ → False) := by
  intro g₁ g₂ h a h₁ h₂
  exact h a h₂ h₁

/-- Distinct built groups are disjoint. -/
theorem buildGroups_pairwise (sets : List (List String)) :
    List.Pairwise (fun g₁ g₂ => ∀ a, a ∈ g₁ → a ∈ g₂ → False) (buildGroups sets) := by
  induction sets with
  | nil => simp [buildGroups]
  | cons S ss ih =>
    rw [buildGroups]
    unfold addSet
    refine List.Pairwise.cons ?_ (List.Pairwise.filter _ ih)
    intro g hg a ha hag
    have hg' : g ∈ buildGroups ss := List.mem_of_mem_filter hg
    have hnt : touches S g = false := by
      have := (List.mem_filter.mp hg).2
      simpa using this
    rcases (mem_foldl_append _ _ _).mp ha with haS | ⟨gt, hgt, hagt⟩
    · have : touches S g = true := (touches_iff S g).mpr ⟨a, hag, haS⟩
      rw [hnt] at this
      exact Bool.noConfusion this
    · have hgt' : gt ∈ buildGroups ss := List.mem_of_mem_filter hgt
      have htc : touches S gt = true := (List.mem_filter.mp hgt).2
      have hne : gt ≠ g := by
        intro he
        rw [he, hnt] at htc
        exact Bool.noConfusion htc
      exact List.Pairwise.forall disjRel_symm ih hgt' hg' hne a hagt hag

/-- A shared identifier forces two built groups to be equal. -/
theorem buildGroups_unique (sets : List (List String)) :
    ∀ g₁ g₂, g₁ ∈ buildGroups sets → g₂ ∈ buildGroups sets →
      ∀ a, a ∈ g₁ → a ∈ g₂ → g₁ = g₂ := by
  intro g₁ g₂ h₁ h₂ a ha₁ ha₂
  by_cases he : g₁ = g₂
  · exact he
  · exact ((List.Pairwise.forall disjRel_symm
      (buildGroups_pairwise sets) h₁ h₂ he) a ha₁ ha₂).elim

/-- Connected identifiers land in one common built group, provided one of
them occurs in some input set. -/
theorem buildGroups_complete (sets : List (List String)) :
    ∀ a b, Conn sets a b → ((∃ S ∈ sets, a ∈ S) ∨ (∃ S ∈ sets, b ∈ S)) →
      ∃ g ∈ buildGroups sets, a ∈ g ∧ b ∈ g := by
  intro a b hconn
  have hconn' : Relation.EqvGen (SetRel sets) a b := hconn
  clear hconn
  induction hconn' with
  | rel x y hxy =>
    intro _
    obtain ⟨S, hS, hx, hy⟩ := hxy
    obtain ⟨g, hg, hsub⟩ := buildGroups_subset sets S hS
    exact ⟨g, hg, hsub hx, hsub hy⟩
  | refl x =>
    intro h
    have hx : ∃ S ∈ sets, x ∈ S := by
      rcases h with h | h <;> exact h
    obtain ⟨S, hS, hxS⟩ := hx
    obtain ⟨g, hg, hsub⟩ := buildGroups_subset sets S hS
    exact ⟨g, hg, hsub hxS, hsub hxS⟩
  | symm x y hxy ihxy =>
    intro h
    obtain ⟨g, hg, hx, hy⟩ := ihxy (Or.symm h)
    exact ⟨g, hg, hy, hx⟩
  | trans x y z hxy hyz ih₁ ih₂ =>
    intro h
    rcases h with hx | hz
    · obtain ⟨g₁, hg₁, hxg, hyg⟩ := ih₁ (Or.inl hx)
      have hy : ∃ S ∈ sets, y ∈ S := buildGroups_support sets g₁ hg₁ y hyg
      obtain ⟨g₂, hg₂, hyg₂, hzg₂⟩ := ih₂ (Or.inl hy)
      have hgg : g₁ = g₂ := buildGroups_unique sets g₁ g₂ hg₁ hg₂ y hyg hyg₂
      subst hgg
      exact ⟨g₁, hg₁, hxg, hzg₂⟩
    · obtain ⟨g₂, hg₂, hyg₂, hzg₂⟩ := ih₂ (Or.inr hz)
      have hy : ∃ S ∈ sets, y ∈ S := buildGroups_support sets g₂ hg₂ y hyg₂
      obtain ⟨g₁, hg₁, hxg, hyg⟩ := ih₁ (Or.inr hy)
      have hgg : g₁ = g₂ := buildGroups_unique sets g₁ g₂ hg₁ hg₂ y hyg hyg₂
      subst hgg
      exact ⟨g₁, hg₁, hxg, hzg₂⟩

/-- bestMember is none exactly on the empty list. -/
theorem bestMember_eq_none (prio : String → Nat) :
    ∀ rs : List ConceptRecord, bestMember prio rs = none ↔ rs = [] := by
  intro rs
  cases rs with
  | nil => simp [bestMember]
  | cons x xs =>
    rw [bestMember]
    cases bestMember prio xs <;> simp

/-- bestMember returns an element of its input list. -/
theorem bestMember_mem (prio : String → Nat) :
    ∀ rs : List ConceptRecord, ∀ r, bestMember prio rs = some r → r ∈ rs := by
  intro rs
  induction rs with
  | nil =>
    intro r h
    simp [bestMember] at h
  | cons x xs ih =>
    intro r h
    rw [bestMember] at h
    cases hb : bestMember prio xs with
    | none =>
      rw [hb] at h
      simp at h
      subst h
      exact List.mem_cons_self _ _
    | some b =>
      rw [hb] at h
      simp at h
      have hbm : b ∈ xs := ih b hb
      unfold better at h
      split_ifs at h <;> subst h
      · exact List.mem_cons_self _ _
      · exact List.mem_cons_of_mem _ hbm
      · exact List.mem_cons_self _ _
      · exact List.mem_cons_of_mem _ hbm

/-- bestMember of a nonempty list exists. -/
theorem bestMember_isSome (prio : String → Nat) :
    ∀ rs : List ConceptRecord, rs ≠ [] → ∃ r, bestMember prio rs = some r := by
  intro rs h
  cases hb : bestMember prio rs with
  | none => exact absurd ((bestMember_eq_none prio rs).mp hb) h
  | some r => exact ⟨r, rfl⟩

/-- The lexicographic order is reflexive. -/
theorem lexLe_refl : ∀ l : List Char, lexLe l l = true := by
  intro l
  induction l with
  | nil => rfl
  | cons c cs ih =>
    rw [lexLe, if_neg (Nat.lt_irrefl _), if_neg (Nat.lt_irrefl _)]
    exact ih

/-- The lexicographic order is total. -/
theorem lexLe_total : ∀ l₁ l₂ : List Char, lexLe l₁ l₂ = true ∨ lexLe l₂ l₁ = true := by
  intro l₁
  induction l₁ with
  | nil =>
    intro l₂
    exact Or.inl rfl
  | cons c cs ih =>
    intro l₂
    cases l₂ with
    | nil => exact Or.inr rfl
    | cons d ds =>
      rcases Nat.lt_trichotomy c.toNat d.toNat with h | h | h
      · left
        rw [lexLe, if_pos h]
      · have hn₁ : ¬ c.toNat < d.toNat := by
          rw [h]
          exact Nat.lt_irrefl _
        have hn₂ : ¬ d.toNat < c.toNat := by
          rw [h]
          exact Nat.lt_irrefl _
        rcases ih ds with h' | h'
        · left
          rw [lexLe, if_neg hn₁, if_neg hn₂]
          exact h'
        · right
          rw [lexLe, if_neg hn₂, if_neg hn₁]
          exact h'
      · right
        rw [lexLe, if_pos h]

/-- The lexicographic order is transitive. -/
theorem lexLe_trans : ∀ l₁ l₂ l₃ : List Char, lexLe l₁ l₂ = true →
    lexLe l₂ l₃ = true → lexLe l₁ l₃ = true := by
  intro l₁
  induction l₁ with
  | nil =>
    intro l₂ l₃ h₁ h₂
    rfl
  | cons c cs ih =>
    intro l₂ l₃ h₁ h₂
    cases l₂ with
    | nil => simp [lexLe] at h₁
    | cons d ds =>
      cases l₃ with
      | nil => simp [lexLe] at h₂
      | cons e es =>
        rw [lexLe] at h₁ h₂ ⊢
        by_cases h1 : c.toNat < d.toNat
        · by_cases h2 : d.toNat < e.toNat
          · rw [if_pos (Nat.lt_trans h1 h2)]
          · by_cases h3 : e.toNat < d.toNat
            · rw [if_neg h2, if_pos h3] at h₂
              exact absurd h₂ (by simp)
            · have hde : d.toNat = e.toNat :=
                Nat.le_antisymm (Nat.le_of_not_lt h3) (Nat.le_of_not_lt h2)
              rw [if_pos (show c.toNat < e.toNat by rw [← hde]; exact h1)]
        · by_cases h1' : d.toNat < c.toNat
          · rw [if_neg h1, if_pos h1'] at h₁
            exact absurd h₁ (by simp)
          · have hcd : c.toNat = d.toNat :=
              Nat.le_antisymm (Nat.le_of_not_lt h1') (Nat.le_of_not_lt h1)
            rw [if_neg h1, if_neg h1'] at h₁
            by_cases h2 : d.toNat < e.toNat
            · rw [if_pos (show c.toNat < e.toNat by rw [hcd]; exact h2)]
            · by_cases h3 : e.toNat < d.toNat
              · rw [if_neg h2, if_pos h3] at h₂
                exact absurd h₂ (by simp)
              · have hde : d.toNat = e.toNat :=
                  Nat.le_antisymm (Nat.le_of_not_lt h3) (Nat.le_of_not_lt h2)
                rw [if_neg h2, if_neg h3] at h₂
                have hce : ¬ c.toNat < e.toNat := by
                  rw [hcd, hde]
                  exact Nat.lt_irrefl _
                have hec : ¬ e.toNat < c.toNat := by
                  rw [hcd, hde]
                  exact Nat.lt_irrefl _
                rw [if_neg hce, if_neg hec]
                exact ih ds es h₁ h₂

/-- The priority order is reflexive. -/
theorem keyLe_refl (prio : String → Nat) (r : ConceptRecord) : keyLe prio r r :=
  Or.inr ⟨rfl, lexLe_refl _⟩

/-- The priority order is transitive. -/
theorem keyLe_trans (prio : String → Nat) (r₁ r₂ r₃ : ConceptRecord) :
    keyLe prio r₁ r₂ → keyLe prio r₂ r₃ → keyLe prio r₁ r₃ := by
  intro h₁ h₂
  rcases h₁ with h | ⟨he, hle⟩ <;> rcases h₂ with h' | ⟨he', hle'⟩
  · exact Or.inl (lt_trans h h')
  · exact Or.inl (he' ▸ h)
  · exact Or.inl (he ▸ h')
  · exact Or.inr ⟨he.trans he', lexLe_trans _ _ _ hle hle'⟩

/-- better is below its left argument. -/
theorem better_le_left (prio : String → Nat) (r₁ r₂ : ConceptRecord) :
    keyLe prio (better prio r₁ r₂) r₁ := by
  unfold better
  split_ifs with h₁ h₂ h₃
  · exact keyLe_refl prio r₁
  · exact Or.inl h₂
  · exact keyLe_refl prio r₁
  · have hpe : prio r₂.source = prio r₁.source :=
      le_antisymm (le_of_not_lt h₁) (le_of_not_lt h₂)
    rcases lexLe_total r₁.concept_id.data r₂.concept_id.data with h | h
    · exact absurd h h₃
    · exact Or.inr ⟨hpe, h⟩

/-- better is below its right argument. -/
theorem better_le_right (prio : String → Nat) (r₁ r₂ : ConceptRecord) :
    keyLe prio (better prio r₁ r₂) r₂ := by
  unfold better
  split_ifs with h₁ h₂ h₃
  · exact Or.inl h₁
  · exact keyLe_refl prio r₂
  · have hpe : prio r₁.source = prio r₂.source :=
      le_antisymm (le_of_not_lt h₂) (le_of_not_lt h₁)
    exact Or.inr ⟨hpe, h₃⟩
  · exact keyLe_refl prio r₂

/-- bestMember is minimal under the priority order. -/
theorem bestMember_min (prio : String → Nat) :
    ∀ rs : List ConceptRecord, ∀ r, bestMember prio rs = some r →
      ∀ r' ∈ rs, keyLe prio r r' := by
  intro rs
  induction rs with
  | nil =>
    intro r h
    simp [bestMember] at h
  | cons x xs ih =>
    intro r h r' hr'
    rw [bestMember] at h
    cases hb : bestMember prio xs with
    | none =>
      rw [hb] at h
      simp at h
      subst h
      have hxs : xs = [] := (bestMember_eq_none prio xs).mp hb
      subst hxs
      have : r' = x := List.mem_singleton.mp hr'
      subst this
      exact keyLe_refl prio r'
    | some b =>
      rw [hb] at h
      simp at h
      subst h
      rcases List.mem_cons.mp hr' with rfl | hr''
      · exact better_le_left prio r' b
      · exact keyLe_trans prio _ b r' (better_le_right prio x b) (ih b hb r' hr'')

/-- A member record of a group has its concept id inside the group. -/
theorem groupRecords_id_mem (records : List ConceptRecord) (g : List String)
    (r : ConceptRecord) (h : r ∈ groupRecords records g) : r.concept_id ∈ g := by
  have h₂ := (List.mem_filter.mp h).2
  simpa using h₂

/-- A record of the list belongs to the member records of any group holding
its concept id. -/
theorem mem_groupRecords (records : List ConceptRecord) (g : List String)
    (r : ConceptRecord) (hr : r ∈ records) (hid : r.concept_id ∈ g) :
    r ∈ groupRecords records g :=
  List.mem_filter.mpr ⟨hr, by simpa using hid⟩

/-- Every record of the input has a merge group holding its concept id. -/
theorem mergeGroupOf_mem (records : List ConceptRecord) (A : ConceptRecord)
    (hA : A ∈ records) :
    ∃ g, mergeGroupOf records A.concept_id = some g ∧ A.concept_id ∈ g ∧
      g ∈ therapyGroups records := by
  have hset : recordNodeSet A ∈ conceptSets records := List.mem_map_of_mem _ hA
  obtain ⟨g, hg, hsub⟩ := buildGroups_subset (conceptSets records) _ hset
  have hida : A.concept_id ∈ g := hsub (List.mem_cons_self _ _)
  have hex : ∃ g' ∈ therapyGroups records, g'.contains A.concept_id = true :=
    ⟨g, hg, by simpa using hida⟩
  have hsome := List.find?_isSome.mpr hex
  cases hfind : (therapyGroups records).find? (fun g => g.contains A.concept_id) with
  | none =>
    rw [hfind] at hsome
    simp at hsome
  | some g' =>
    have hmem := List.mem_of_find?_eq_some hfind
    have hpred := List.find?_some hfind
    have hida' : A.concept_id ∈ g' := by simpa using hpred
    exact ⟨g', hfind, hida', hmem⟩

/-- The merge ref of an input record: its group exists and the ref is the
concept id of the best member of the group. -/
theorem mergeRefOf_eq (prio : String → Nat) (records : List ConceptRecord)
    (A : ConceptRecord) (hA : A ∈ records) :
    ∃ g r, mergeGroupOf records A.concept_id = some g ∧ A.concept_id ∈ g ∧
      g ∈ therapyGroups records ∧
      bestMember prio (groupRecords records g) = some r ∧
      mergeRefOf prio records A = some r.concept_id ∧
      r ∈ groupRecords records g := by
  obtain ⟨g, hfind, hid, hgmem⟩ := mergeGroupOf_mem records A hA
  have hAg : A ∈ groupRecords records g := mem_groupRecords records g A hA hid
  have hne : groupRecords records g ≠ [] := by
    intro h
    rw [h] at hAg
    cases hAg
  obtain ⟨r, hr⟩ := bestMember_isSome prio _ hne
  refine ⟨g, r, hfind, hid, hgmem, hr, ?_, bestMember_mem prio _ r hr⟩
  unfold mergeRefOf
  rw [hfind]
  show Option.map (fun r => r.concept_id) (bestMember prio (groupRecords records g))
    = some r.concept_id
  rw [hr]
  rfl

/-- An equivalence closure of a relation relating only equals relates only
equals. -/
theorem eqvGen_eq_of_sub {α : Type} {r : α → α → Prop}
    (h : ∀ x y, r x y → x = y) : ∀ a b, Relation.EqvGen r a b → a = b := by
  intro a b hab
  induction hab with
  | rel x y hxy => exact h x y hxy
  | refl x => rfl
  | symm x y _ ih => exact ih.symm
  | trans x y z _ _ ih₁ ih₂ => exact ih₁.trans ih₂

/-- On the shared-external-xref pair the claim-worded edge relation is empty:
neither record cites the other and no third record cites both. -/
theorem claimEdge_exShared_false (x y : String) (h : claimEdge exSharedRecs x y) :
    False := by
  obtain ⟨hx, hy, hor⟩ := h
  obtain ⟨rx, hrx, hxe⟩ := hx
  obtain ⟨ry, hry, hye⟩ := hy
  simp only [exSharedRecs, List.mem_cons, List.not_mem_nil, or_false] at hrx hry
  rcases hor with ⟨r, hr, hre, hmem⟩ | ⟨r, hr, hre, hmem⟩ | ⟨r, hr, hm₁, hm₂⟩ <;>
    simp only [exSharedRecs, List.mem_cons, List.not_mem_nil, or_false] at hr <;>
    rcases hrx with rfl | rfl <;> rcases hry with rfl | rfl <;>
    rcases hr with rfl | rfl <;>
    simp_all [exSharedA, exSharedB]

/-- Claim C1 as stated is false on the code: two records that only share an
external xref have no path in the claim-worded xref graph, yet the builder
assigns them equal merge refs (and the rebuild succeeds). -/
theorem claim_C1_counterexample :
    (rebuild sourcePriority ⟨exSharedRecs, []⟩).2 = none ∧
    mergeRefOf sourcePriority exSharedRecs exSharedA
      = mergeRefOf sourcePriority exSharedRecs exSharedB ∧
    exSharedA.concept_id ≠ exSharedB.concept_id ∧
    ¬ claimConnected exSharedRecs exSharedA.concept_id exSharedB.concept_id := by
  refine ⟨by decide, by decide, by decide, ?_⟩
  intro h
  have heq := eqvGen_eq_of_sub
    (fun x y hxy => (claimEdge_exShared_false x y hxy).elim) _ _ h
  exact absurd heq (by decide)

/-- Claim C1 (amended): after a rebuild, two input records carry equal
merge_refs exactly when their concept ids are connected in the xref graph,
where connectivity is the equivalence closure of co-occurrence in a record
identifier set (direct citation, co-citation by a third record, or a shared
xref identifier, applied transitively). mergeRefOf is the merge_ref value the
builder writes into each record on a successful rebuild. -/
theorem claim_C1_amended (prio : String → Nat) (records : List ConceptRecord)
    (A B : ConceptRecord) (hA : A ∈ records) (hB : B ∈ records) :
    mergeRefOf prio records A = mergeRefOf prio records B ↔
      Conn (conceptSets records) A.concept_id B.concept_id := by
  obtain ⟨gA, rA, hfA, hidA, hgA, hbA, hvA, hrA⟩ := mergeRefOf_eq prio records A hA
  obtain ⟨gB, rB, hfB, hidB, hgB, hbB, hvB, hrB⟩ := mergeRefOf_eq prio records B hB
  constructor
  · intro heq
    rw [hvA, hvB] at heq
    have hids : rA.concept_id = rB.concept_id := Option.some.inj heq
    have hidAg : rA.concept_id ∈ gA := groupRecords_id_mem records gA rA hrA
    have hidBg : rA.concept_id ∈ gB := by
      rw [hids]
      exact groupRecords_id_mem records gB rB hrB
    have hgg : gA = gB := buildGroups_unique (conceptSets records) gA gB hgA hgB
      rA.concept_id hidAg hidBg
    subst hgg
    exact buildGroups_sound (conceptSets records) gA hgA _ hidA _ hidB
  · intro hconn
    obtain ⟨g, hg, haG, hbG⟩ := buildGroups_complete (conceptSets records) _ _ hconn
      (Or.inl ⟨recordNodeSet A, List.mem_map_of_mem _ hA, List.mem_cons_self _ _⟩)
    have h₁ : gA = g := buildGroups_unique (conceptSets records) gA g hgA hg _ hidA haG
    have h₂ : gB = g := buildGroups_unique (conceptSets records) gB g hgB hg _ hidB hbG
    rw [hvA, hvB]
    rw [h₁] at hbA
    rw [h₂] at hbB
    have hrr : rA = rB := Option.some.inj (hbA.symm.trans hbB)
    rw [hrr]

/-- Witness for claim C1 (amended) at a concrete direct-citation pair. -/
theorem claim_C1_witness :
    Conn (conceptSets wConnRecs) wConnA.concept_id wConnB.concept_id :=
  (claim_C1_amended sourcePriority wConnRecs wConnA wConnB (by decide)
    (by decide)).mp (by decide)

/-- Claim C4 as stated is false on the code: the cisplatin merged fixture of
delete_normalized_concepts.sql carries the group id rxcui:2555, while the
lexicographically smallest member concept id is chembl:CHEMBL11359. -/
theorem claim_C4_counterexample :
    lexMin cisplatinMembers = some "chembl:CHEMBL11359" ∧
    cisplatinGroupId = "rxcui:2555" ∧
    lexMin cisplatinMembers ≠ some cisplatinGroupId := by
  refine ⟨by decide, rfl, by decide⟩

/-- Claim C4 (amended): the identifier of a merge group is the concept id of
the member record from the highest-priority source (rxnorm first, per the
fixtures), ties broken by the lexicographically smallest concept id — not
the lexicographically smallest member concept id. -/
theorem claim_C4_amended (prio : String → Nat) (records : List ConceptRecord)
    (A : ConceptRecord) (hA : A ∈ records) :
    ∃ g r, mergeGroupOf records A.concept_id = some g ∧
      mergeRefOf prio records A = some r.concept_id ∧
      r ∈ groupRecords records g ∧
      ∀ r' ∈ groupRecords records g, keyLe prio r r' := by
  obtain ⟨g, r, hf, hid, hgm, hb, hv, hrm⟩ := mergeRefOf_eq prio records A hA
  exact ⟨g, r, hf, hv, hrm, bestMember_min prio _ r hb⟩

/-- Witness for claim C4 (amended) on the spec example pair: with ncit
ranked above chembl the merged group id is ncit:C1, not the
lexicographically smaller chembl:CHEMBL1. -/
theorem claim_C4_witness :
    mergeRefOf sourcePriority wExampleRecs wNcit = some "ncit:C1" ∧
    ∃ g r, mergeGroupOf wExampleRecs wNcit.concept_id = some g ∧
      mergeRefOf sourcePriority wExampleRecs wNcit = some r.concept_id ∧
      r ∈ groupRecords wExampleRecs g ∧
      ∀ r' ∈ groupRecords wExampleRecs g, keyLe sourcePriority r r' :=
  ⟨by decide, claim_C4_amended sourcePriority wExampleRecs wNcit (by decide)⟩

/-- Claim C5 as stated is false on the code: the phenobarbital merged
fixture keeps two aliases that differ only by letter case, so merged aliases
are not deduplicated case-insensitively. -/
theorem claim_C5_counterexample :
    "PHENOBARBITAL" ∈ phenobarbitalMergedAliases ∧
    "phenobarbital" ∈ phenobarbitalMergedAliases ∧
    foldStr "PHENOBARBITAL" = foldStr "phenobarbital" ∧
    "PHENOBARBITAL" ≠ "phenobarbital" :=
  ⟨by decide, by decide, by decide, by decide⟩

/-- Claim C5 (amended): every list-valued field of a merged record is the
set union of the member values with exact, case-sensitive deduplication:
membership is equivalent to membership in some member record, and the
aliases and trade names hold no exact duplicates (case variants are kept). -/
theorem claim_C5_amended (prio : String → Nat) (records : List ConceptRecord)
    (g : List String) :
    (∀ s, s ∈ (mkMerged prio records g).aliases ↔
      ∃ r ∈ groupRecords records g, s ∈ r.aliases) ∧
    (mkMerged prio records g).aliases.Nodup ∧
    (∀ s, s ∈ (mkMerged prio records g).trade_names ↔
      ∃ r ∈ groupRecords records g, s ∈ r.trade_names) ∧
    (mkMerged prio records g).trade_names.Nodup ∧
    (∀ s, s ∈ (mkMerged prio records g).xrefs ↔
      ∃ r ∈ groupRecords records g, s ∈ r.xrefs) ∧
    (∀ s, s ∈ (mkMerged prio records g).associated_with ↔
      ∃ r ∈ groupRecords records g, s ∈ r.associated_with) := by
  refine ⟨?_, ?_, ?_, ?_, ?_, ?_⟩ <;>
    first
      | (intro s
         simp [mkMerged, List.mem_dedup, List.mem_flatMap])
      | simp [mkMerged, List.nodup_dedup]

/-- Two record-update identities of clearRecord. -/
theorem clearRecord_idem (r : ConceptRecord) :
    clearRecord (clearRecord r) = clearRecord r := rfl

/-- Clearing after setting the merge ref equals clearing alone. -/
theorem clearRecord_set (r : ConceptRecord) (x : Option String) :
    clearRecord { r with merge_ref := x } = clearRecord r := rfl

/-- Deleting normalized concepts twice equals deleting them once. -/
theorem delete_idem (st : DBState) :
    deleteNormalizedConcepts (deleteNormalizedConcepts st) =
      deleteNormalizedConcepts st := by
  unfold deleteNormalizedConcepts
  simp [List.map_map, Function.comp, clearRecord_idem]

/-- A rebuild only reads the cleared state. -/
theorem rebuild_eq_of_clear_eq (prio : String → Nat) (st₁ st₂ : DBState)
    (h : deleteNormalizedConcepts st₁ = deleteNormalizedConcepts st₂) :
    rebuild prio st₁ = rebuild prio st₂ := by
  unfold rebuild
  rw [h]

/-- Setting merge refs before clearing the state is invisible: the cleared
state only depends on the fields clearing keeps. -/
theorem delete_setRefs (prio : String → Nat) (cs : List ConceptRecord)
    (ms ms' : List MergedRecord) :
    deleteNormalizedConcepts ⟨setMergeRefs prio cs, ms⟩
      = deleteNormalizedConcepts ⟨cs, ms'⟩ := by
  unfold deleteNormalizedConcepts setMergeRefs
  simp [List.map_map, Function.comp, clearRecord_set]

/-- Clearing the state produced by a rebuild gives the same cleared state as
clearing the input state. -/
theorem rebuild_clear_invariant (prio : String → Nat) (st : DBState) :
    deleteNormalizedConcepts (rebuild prio st).1 = deleteNormalizedConcepts st := by
  by_cases hcond : (therapyGroups (deleteNormalizedConcepts st).concepts).any
      (fun g => selfMergy (deleteNormalizedConcepts st).concepts g) = true
  · have hre : rebuild prio st
        = (deleteNormalizedConcepts st, some MergeError.selfMerge) := by
      unfold rebuild
      simp only [computeMerged]
      rw [if_pos hcond]
    rw [hre]
    exact delete_idem st
  · have hre : rebuild prio st =
        (⟨setMergeRefs prio (deleteNormalizedConcepts st).concepts,
          (therapyGroups (deleteNormalizedConcepts st).concepts).map
            (fun g => mkMerged prio (deleteNormalizedConcepts st).concepts g)⟩,
         none) := by
      unfold rebuild
      simp only [computeMerged]
      rw [if_neg hcond]
    rw [hre]
    show deleteNormalizedConcepts
        ⟨setMergeRefs prio (deleteNormalizedConcepts st).concepts,
          (therapyGroups (deleteNormalizedConcepts st).concepts).map
            (fun g => mkMerged prio (deleteNormalizedConcepts st).concepts g)⟩
      = deleteNormalizedConcepts st
    rw [delete_setRefs prio _ _ []]
    exact delete_idem st

/-- Claim C7: the rebuild is idempotent — rebuilding again from the state a
rebuild produced yields the identical outcome (same merged records, same
merge refs, same error signal) as the first rebuild. -/
theorem claim_C7_idempotent (prio : String → Nat) (st : DBState) :
    rebuild prio (rebuild prio st).1 = rebuild prio st :=
  rebuild_eq_of_clear_eq prio _ st (rebuild_clear_invariant prio st)

/-- Claim C6 as stated is false on the code: a rebuild over self-merging
records raises SelfMergeError, but the previously published merged set does
not remain — delete_normalized_concepts has already dropped it before the
builder runs, so the aborted state holds no merged records. -/
theorem claim_C6_counterexample :
    (rebuild sourcePriority selfMergeState).2 = some MergeError.selfMerge ∧
    selfMergeState.merged = [priorMerged] ∧
    (rebuild sourcePriority selfMergeState).1.merged = [] :=
  ⟨by decide, rfl, by decide⟩

/-- Claim C6 (amended): when two records of one source land in a single
group, the rebuild raises SelfMergeError and publishes no new merged
records; however the resulting state is the cleared state (merge refs
nulled, merged table dropped) rather than the previously published one. -/
theorem claim_C6_amended (prio : String → Nat) (st : DBState)
    (h : ∃ g ∈ therapyGroups (st.concepts.map clearRecord),
      selfMergy (st.concepts.map clearRecord) g = true) :
    rebuild prio st = (deleteNormalizedConcepts st, some MergeError.selfMerge) := by
  have hcond : (therapyGroups (deleteNormalizedConcepts st).concepts).any
      (fun g => selfMergy (deleteNormalizedConcepts st).concepts g) = true :=
    List.any_eq_true.mpr h
  unfold rebuild
  simp only [computeMerged]
  rw [if_pos hcond]

/-- Witness for claim C6 (amended) on the self-merge example scenario. -/
theorem claim_C6_witness :
    rebuild sourcePriority selfMergeState
      = (deleteNormalizedConcepts selfMergeState, some MergeError.selfMerge) :=
  claim_C6_amended sourcePriority selfMergeState (by decide)

/-- Scanning a tier list whose prefix has no hits resolves at the first tier
with hits. -/
theorem scanTiers_split (db : List MergedRecord) (qn : String) :
    ∀ (pre : List Tier) (t : Tier) (post : List Tier),
      (∀ t' ∈ pre, tierHits db t' qn = []) → tierHits db t qn ≠ [] →
      scanTiers db qn (pre ++ t :: post) = resolveHits t (tierHits db t qn) := by
  intro pre
  induction pre with
  | nil =>
    intro t post hpre ht
    rw [List.nil_append, scanTiers, if_neg ht]
  | cons t₀ ts ih =>
    intro t post hpre ht
    rw [List.cons_append, scanTiers, if_pos (hpre t₀ (List.mem_cons_self _ _))]
    exact ih t post (fun t' h => hpre t' (List.mem_cons_of_mem _ h)) ht

/-- Claim C2: the engine resolves strictly in tier priority order. The result
always equals the resolution of the hits of the first tier that has any hit;
when tier k has a hit, the resolving tier sits at or above k and every tier
of strictly higher priority is empty, so candidates of tiers below k cannot
influence the result. -/
theorem claim_C2_tier_priority (db : List MergedRecord) (qn : String) (k : Tier)
    (hk : tierHits db k qn ≠ []) :
    ∃ t pre post, tierList = pre ++ t :: post ∧
      tierHits db t qn ≠ [] ∧
      (∀ t' ∈ pre, tierHits db t' qn = []) ∧
      tierIdx t ≤ tierIdx k ∧
      resolveQuery db qn = resolveHits t (tierHits db t qn) := by
  by_cases h₀ : tierHits db Tier.conceptId qn = []
  · by_cases h₁ : tierHits db Tier.label qn = []
    · by_cases h₂ : tierHits db Tier.aliasTrade qn = []
      · by_cases h₃ : tierHits db Tier.xref qn = []
        · by_cases h₄ : tierHits db Tier.assoc qn = []
          · cases k
            · exact absurd h₀ hk
            · exact absurd h₁ hk
            · exact absurd h₂ hk
            · exact absurd h₃ hk
            · exact absurd h₄ hk
          · have hpre : ∀ t' ∈ [Tier.conceptId, Tier.label, Tier.aliasTrade,
                Tier.xref], tierHits db t' qn = [] := by
              intro t' ht'
              fin_cases ht'
              · exact h₀
              · exact h₁
              · exact h₂
              · exact h₃
            refine ⟨Tier.assoc,
              [Tier.conceptId, Tier.label, Tier.aliasTrade, Tier.xref], [],
              rfl, h₄, hpre, ?_, ?_⟩
            · cases k
              · exact absurd h₀ hk
              · exact absurd h₁ hk
              · exact absurd h₂ hk
              · exact absurd h₃ hk
              · exact Nat.le_refl _
            · exact scanTiers_split db qn _ Tier.assoc [] hpre h₄
        · have hpre : ∀ t' ∈ [Tier.conceptId, Tier.label, Tier.aliasTrade],
              tierHits db t' qn = [] := by
            intro t' ht'
            fin_cases ht'
            · exact h₀
            · exact h₁
            · exact h₂
          refine ⟨Tier.xref, [Tier.conceptId, Tier.label, Tier.aliasTrade],
            [Tier.assoc], rfl, h₃, hpre, ?_, ?_⟩
          · cases k
            · exact absurd h₀ hk
            · exact absurd h₁ hk
            · exact absurd h₂ hk
            · exact Nat.le_refl _
            · exact by decide
          · exact scanTiers_split db qn _ Tier.xref [Tier.assoc] hpre h₃
      · have hpre : ∀ t' ∈ [Tier.conceptId, Tier.label],
            tierHits db t' qn = [] := by
          intro t' ht'
          fin_cases ht'
          · exact h₀
          · exact h₁
        refine ⟨Tier.aliasTrade, [Tier.conceptId, Tier.label],
          [Tier.xref, Tier.assoc], rfl, h₂, hpre, ?_, ?_⟩
        · cases k
          · exact absurd h₀ hk
          · exact absurd h₁ hk
          · exact Nat.le_refl _
          · exact by decide
          · exact by decide
        · exact scanTiers_split db qn _ Tier.aliasTrade [Tier.xref, Tier.assoc]
            hpre h₂
    · have hpre : ∀ t' ∈ [Tier.conceptId], tierHits db t' qn = [] := by
        intro t' ht'
        fin_cases ht'
        exact h₀
      refine ⟨Tier.label, [Tier.conceptId],
        [Tier.aliasTrade, Tier.xref, Tier.assoc], rfl, h₁, hpre, ?_, ?_⟩
      · cases k
        · exact absurd h₀ hk
        · exact Nat.le_refl _
        · exact by decide
        · exact by decide
        · exact by decide
      · exact scanTiers_split db qn _ Tier.label
          [Tier.aliasTrade, Tier.xref, Tier.assoc] hpre h₁
  · refine ⟨Tier.conceptId, [],
      [Tier.label, Tier.aliasTrade, Tier.xref, Tier.assoc], rfl, h₀,
      (by intro t' ht'; cases ht'), Nat.zero_le _, ?_⟩
    exact scanTiers_split db qn [] Tier.conceptId
      [Tier.label, Tier.aliasTrade, Tier.xref, Tier.assoc]
      (by intro t' ht'; cases ht') h₀

/-- Witness for claim C2: foo is a label of one group and an alias of
another; the label tier has a hit, and the engine resolves from the first
nonempty tier, which is at or above the label tier. -/
theorem claim_C2_witness :
    tierHits wTierDb Tier.label "foo" ≠ [] ∧
    tierHits wTierDb Tier.aliasTrade "foo" ≠ [] ∧
    (∃ t pre post, tierList = pre ++ t :: post ∧
      tierHits wTierDb t "foo" ≠ [] ∧
      (∀ t' ∈ pre, tierHits wTierDb t' "foo" = []) ∧
      tierIdx t ≤ tierIdx Tier.label ∧
      resolveQuery wTierDb "foo" = resolveHits t (tierHits wTierDb t "foo")) :=
  ⟨by decide, by decide, claim_C2_tier_priority wTierDb "foo" Tier.label (by decide)⟩

/-- Claim C3: when two or more distinct merge groups tie at the first tier
with any hit, the engine returns AMBIGUOUS carrying the full hit list of
that tier; it never silently picks one group. -/
theorem claim_C3_ambiguous (db : List MergedRecord) (qn : String)
    (pre post : List Tier) (t : Tier)
    (hsplit : tierList = pre ++ t :: post)
    (hpre : ∀ t' ∈ pre, tierHits db t' qn = [])
    (ht : tierHits db t qn ≠ [])
    (hdist : 2 ≤ (distinctIds (tierHits db t qn)).length) :
    resolveQuery db qn = QueryResult.ambiguous t (tierHits db t qn) := by
  have hs : resolveQuery db qn = resolveHits t (tierHits db t qn) := by
    unfold resolveQuery
    rw [hsplit]
    exact scanTiers_split db qn pre t post hpre ht
  rw [hs]
  cases hh : tierHits db t qn with
  | nil => exact absurd hh ht
  | cons g gs =>
    rw [hh] at hdist
    unfold resolveHits
    cases hd : distinctIds (g :: gs) with
    | nil =>
      rw [hd] at hdist
      simp at hdist
    | cons i is =>
      cases is with
      | nil =>
        rw [hd] at hdist
        simp at hdist
      | cons i₂ is₂ => rfl

/-- Witness for claim C3: two distinct groups expose the alias Foo, neither
has a higher-tier match, and the upper-cased query FOO returns AMBIGUOUS
listing both groups. -/
theorem claim_C3_witness :
    normalize wAmbigDb "FOO" = Except.ok (QueryResult.ambiguous Tier.aliasTrade
      (tierHits wAmbigDb Tier.aliasTrade "foo")) ∧
    tierHits wAmbigDb Tier.aliasTrade "foo" = [gAliasFoo, gAliasFoo2] := by
  have h := claim_C3_ambiguous wAmbigDb "foo" [Tier.conceptId, Tier.label]
    [Tier.xref, Tier.assoc] Tier.aliasTrade rfl
    (by
      intro t' ht'
      fin_cases ht'
      · decide
      · decide)
    (by decide) (by decide)
  refine ⟨?_, by decide⟩
  have hq : normQuery "FOO" = Except.ok "foo" := by rfl
  unfold normalize
  rw [hq]
  show Except.ok (resolveQuery wAmbigDb "foo") = _
  rw [h]

/-- Claim C8: every index lookup is case-insensitive: a stored term matches
the trimmed query exactly when its case-folded form equals the case-folded
trimmed query, and two queries with the same case-folded form (letter-case
variants in particular) always produce the same engine result. -/
theorem claim_C8_case_insensitive (db : List MergedRecord) :
    (∀ q t g, tierMatch t (foldStr (trimStr q)) g = true ↔
      ∃ term ∈ tierTerms t g, foldStr term = foldStr (trimStr q)) ∧
    (∀ q₁ q₂, foldStr q₁ = foldStr q₂ → normalize db q₁ = normalize db q₂) := by
  constructor
  · intro q t g
    unfold tierMatch termMatches
    rw [List.any_eq_true]
    simp
  · intro q₁ q₂ h
    exact normalize_fold_invariant db h

/-- Witness for claim C8 on a letter-case variant pair of queries. -/
theorem claim_C8_witness :
    foldStr "AbC" = foldStr "aBc" ∧
    normalize wTierDb "AbC" = normalize wTierDb "aBc" :=
  ⟨by decide, (claim_C8_case_insensitive wTierDb).2 "AbC" "aBc" (by decide)⟩

/-- Claim C9: the engine rejects a query with InvalidQueryError exactly when
it is empty or all whitespace, and such a query never yields an ok result
(in particular never NO_MATCH); any other query is not rejected. -/
theorem claim_C9_invalid_query (db : List MergedRecord) (q : String) :
    (normalize db q = Except.error QueryError.invalidQuery ↔
      q.data.all wspB = true) ∧
    (q.data.all wspB = true → ∀ res, normalize db q ≠ Except.ok res) := by
  have hiff : (trimStr q).data = [] ↔ q.data.all wspB = true := by
    show trimL q.data = [] ↔ _
    rw [trimL_eq_nil_iff, List.all_eq_true]
  constructor
  · by_cases h : (trimStr q).data = []
    · unfold normalize normQuery
      rw [if_pos h]
      show Except.error QueryError.invalidQuery
          = Except.error QueryError.invalidQuery ↔ q.data.all wspB = true
      simp [hiff.mp h]
    · unfold normalize normQuery
      rw [if_neg h]
      show Except.ok (resolveQuery db (foldStr (trimStr q)))
          = Except.error QueryError.invalidQuery ↔ q.data.all wspB = true
      constructor
      · intro hx
        exact absurd hx (by simp)
      · intro hall
        exact absurd (hiff.mpr hall) h
  · intro hall res
    unfold normalize normQuery
    rw [if_pos (hiff.mpr hall)]
    show Except.error QueryError.invalidQuery ≠ Except.ok res
    simp

/-- Witness for claim C9 on a whitespace-only query. -/
theorem claim_C9_witness :
    ("  ".data.all wspB = true) ∧
    normalize wTierDb "  " = Except.error QueryError.invalidQuery :=
  ⟨by decide, ((claim_C9_invalid_query wTierDb "  ").1).mpr (by decide)⟩

/-- Composing the WHERE clause with the per-concept grouping: the kept rows
of one concept id are its unii-prefixed rows when the id matches the Drugs
at FDA namespace, and nothing otherwise. -/
theorem kept_filter_eq (table : List AssocRow) (cid : String) :
    (table.filter uniiRowKeep).filter (fun r => r.concept_id == cid)
      = if isPreCI "drugsatfda." cid = true
        then table.filter (fun row => row.concept_id == cid &&
          isPreCI "unii:" row.associated_with)
        else [] := by
  rw [List.filter_filter]
  split_ifs with hd
  · apply List.filter_congr
    intro row hrow
    cases hbe : row.concept_id == cid with
    | false => simp [hbe]
    | true =>
      have hceq : row.concept_id = cid := beq_iff_eq.mp hbe
      simp [hbe, uniiRowKeep, hceq, hd]
  · rw [List.filter_eq_nil_iff]
    intro row hrow
    cases hbe : row.concept_id == cid with
    | false => simp [hbe]
    | true =>
      have hceq : row.concept_id = cid := beq_iff_eq.mp hbe
      simp [hbe, uniiRowKeep, hceq, hd]

/-- Claim C10 as stated is false on the code: the view uses ILIKE, which is
case-insensitive, so a concept id with the upper-cased namespace
DRUGSATFDA. (not the prefix drugsatfda.) still lands in the view. -/
theorem claim_C10_counterexample :
    uniiLookupView cxUniiTable = [("DRUGSATFDA.nda:1", "unii:X")] ∧
    isPre "drugsatfda." "DRUGSATFDA.nda:1" = false :=
  ⟨by decide, by decide⟩

/-- Claim C10 (amended): the unii lookup view contains a concept id exactly
when the id matches the drugsatfda. namespace case-insensitively (the ILIKE
semantics) and the table holds exactly one association row for it whose
value matches unii: case-insensitively; a concept with zero or with two or
more such rows is excluded, as is every id outside the namespace. -/
theorem claim_C10_amended (table : List AssocRow) (cid : String) :
    (∃ u, (cid, u) ∈ uniiLookupView table) ↔
      (isPreCI "drugsatfda." cid = true ∧
        ∃ r, table.filter (fun row => row.concept_id == cid &&
          isPreCI "unii:" row.associated_with) = [r]) := by
  unfold uniiLookupView
  constructor
  · rintro ⟨u, hu⟩
    rw [List.mem_filterMap] at hu
    obtain ⟨c, hc, hfc⟩ := hu
    cases hf : (table.filter uniiRowKeep).filter (fun r => r.concept_id == c) with
    | nil =>
      rw [hf] at hfc
      simp at hfc
    | cons r rs =>
      cases rs with
      | nil =>
        rw [hf] at hfc
        simp at hfc
        obtain ⟨hc₁, hc₂⟩ := hfc
        subst hc₁
        rw [kept_filter_eq table c] at hf
        by_cases hdp : isPreCI "drugsatfda." c = true
        · rw [if_pos hdp] at hf
          exact ⟨hdp, r, hf⟩
        · rw [if_neg hdp] at hf
          simp at hf
      | cons r₂ rs₂ =>
        rw [hf] at hfc
        simp at hfc
  · rintro ⟨hd, r, hr⟩
    have hrmem : r ∈ table.filter (fun row => row.concept_id == cid &&
        isPreCI "unii:" row.associated_with) := by
      rw [hr]
      exact List.mem_cons_self r []
    have hrt : r ∈ table := List.mem_of_mem_filter hrmem
    have hrp : (r.concept_id == cid) = true ∧
        isPreCI "unii:" r.associated_with = true := by
      simpa using (List.mem_filter.mp hrmem).2
    have hide : r.concept_id = cid := beq_iff_eq.mp hrp.1
    have huni : isPreCI "unii:" r.associated_with = true := hrp.2
    have hkeep : uniiRowKeep r = true := by
      unfold uniiRowKeep
      rw [huni, hide, hd]
      rfl
    have hkmem : r ∈ table.filter uniiRowKeep := List.mem_filter.mpr ⟨hrt, hkeep⟩
    refine ⟨r.associated_with, ?_⟩
    rw [List.mem_filterMap]
    refine ⟨cid, ?_, ?_⟩
    · rw [List.mem_dedup]
      exact List.mem_map.mpr ⟨r, hkmem, hide⟩
    · have hkf : (table.filter uniiRowKeep).filter
          (fun rr => rr.concept_id == cid) = [r] := by
        rw [kept_filter_eq table cid, if_pos hd]
        exact hr
      rw [hkf]

end Therapy
